import Mathlib

set_option maxRecDepth 4000

/- Shallow embedding of the data normalization / imputation pipeline in
src/pages/build_dashboard_from_plan_actual.py (pandas + numpy).

Modelling conventions:
* Python/numpy floats are idealized as exact rationals; a missing cell
  (pandas NaN / NaT) is Option.none.  The special results of float("inf")
  and float("nan") are kept explicitly in PyVal.
* Strings are modelled over their ASCII content: the Unicode extensions of
  Python's whitespace and digit classes are out of scope.
* A pandas timestamp is a rational number: integer part = days since
  1970-01-01 (a Thursday), fractional part = time of day.
  Timestamp.normalize() is the floor, Timestamp.weekday() is derived from
  the integer part (0 = Monday .. 6 = Sunday). -/

namespace RunDash

/- ---------------------------------------------------------------------
Python string helpers: str.strip() and the whitespace class (ASCII part).
--------------------------------------------------------------------- -/

def isPySpace (c : Char) : Bool :=
  c = ' ' || c = '\t' || c = '\n' || c = '\r' || c = '\x0b' || c = '\x0c'

def stripChars (cs : List Char) : List Char :=
  ((cs.dropWhile isPySpace).reverse.dropWhile isPySpace).reverse

/-- Python `str.strip()` (ASCII whitespace). -/
def pyStrip (s : String) : String := String.mk (stripChars s.data)

def lowerStr (s : String) : String := String.mk (s.data.map Char.toLower)

def digitVal (c : Char) : ℕ := c.toNat - '0'.toNat

/- ---------------------------------------------------------------------
Python float(str): the CPython float-literal grammar.
  sign? (inf | infinity | nan | number), case-insensitive words, where
  number = digitpart ['.' digitpart?] ['e' sign? digitpart]
         | '.' digitpart ['e' sign? digitpart]
  and a digitpart is digits with single underscores between digits
  (PEP 515).  The value is exact (double rounding is idealized away).
--------------------------------------------------------------------- -/

/-- Result of Python float(): NaN, signed infinity, or a finite value. -/
inductive PyVal where
  | nan : PyVal
  | infty : Bool → PyVal
  | fin : ℚ → PyVal
deriving DecidableEq

/-- Continue a digitpart: consume digits, allowing a single underscore
between two digits; stop (without consuming) otherwise. -/
def digitsUGo (acc : List ℕ) : List Char → List ℕ × List Char
  | '_' :: c :: rest =>
      if c.isDigit then digitsUGo (acc ++ [digitVal c]) rest
      else (acc, '_' :: c :: rest)
  | c :: rest =>
      if c.isDigit then digitsUGo (acc ++ [digitVal c]) rest
      else (acc, c :: rest)
  | [] => (acc, [])

/-- A digitpart must start with a digit. -/
def digitsU : List Char → Option (List ℕ × List Char)
  | c :: rest => if c.isDigit then some (digitsUGo [digitVal c] rest) else none
  | [] => none

def digitsVal (ds : List ℕ) : ℕ := ds.foldl (fun a d => 10 * a + d) 0

def tenPow (n : ℕ) : ℚ := (10 : ℚ) ^ n

def fracVal (fs : List ℕ) : ℚ := (digitsVal fs : ℚ) / tenPow fs.length

/-- Optional exponent suffix `[eE][+-]?digitpart`; when absent or
malformed the input is left unconsumed (a malformed exponent then fails
the full-string match in `pyFloat`). -/
def exponentPart (q : ℚ) (cs : List Char) : ℚ × List Char :=
  match cs with
  | c :: rest =>
    if c = 'e' || c = 'E' then
      match rest with
      | '+' :: rest2 =>
        match digitsU rest2 with
        | some (ds, rest3) => (q * tenPow (digitsVal ds), rest3)
        | none => (q, cs)
      | '-' :: rest2 =>
        match digitsU rest2 with
        | some (ds, rest3) => (q / tenPow (digitsVal ds), rest3)
        | none => (q, cs)
      | _ =>
        match digitsU rest with
        | some (ds, rest3) => (q * tenPow (digitsVal ds), rest3)
        | none => (q, cs)
    else (q, cs)
  | [] => (q, [])

/-- The numeric part of the float grammar (no sign, no inf/nan words). -/
def parseNumber (cs : List Char) : Option (ℚ × List Char) :=
  match digitsU cs with
  | some (ds, rest) =>
    match rest with
    | '.' :: rest2 =>
      match digitsU rest2 with
      | some (fs, rest3) => some (exponentPart ((digitsVal ds : ℚ) + fracVal fs) rest3)
      | none => some (exponentPart ((digitsVal ds : ℚ)) rest2)
    | _ => some (exponentPart ((digitsVal ds : ℚ)) rest)
  | none =>
    match cs with
    | '.' :: rest2 =>
      match digitsU rest2 with
      | some (fs, rest3) => some (exponentPart (fracVal fs) rest3)
      | none => none
    | _ => none

def lowerEq (cs : List Char) (word : List Char) : Bool :=
  cs.map Char.toLower == word

def pyFloatCore (neg : Bool) (cs : List Char) : Option PyVal :=
  if lowerEq cs "inf".data || lowerEq cs "infinity".data then some (PyVal.infty neg)
  else if lowerEq cs "nan".data then some PyVal.nan
  else
    match parseNumber cs with
    | some (q, []) => some (PyVal.fin (if neg then -q else q))
    | _ => none

/-- Python `float(s)`: `none` models the ValueError. -/
def pyFloat (s : String) : Option PyVal :=
  match stripChars s.data with
  | '+' :: rest => pyFloatCore false rest
  | '-' :: rest => pyFloatCore true rest
  | cs => pyFloatCore false cs

/- ---------------------------------------------------------------------
The regex  ^\s*(\d{1,2})\s*:\s*(\d{1,2})\s*$  (re.match, line 28).
A deterministic matcher: \d{1,2} is taken greedily and the match fails
when a third consecutive digit follows — equivalent to the backtracking
semantics, because after the digit group the pattern needs \s* then ':'
(resp. the end), which a digit can never start. -/

def skipWs (cs : List Char) : List Char := cs.dropWhile isPySpace

def take12 (cs : List Char) : Option (ℕ × List Char) :=
  match cs with
  | c1 :: rest =>
    if c1.isDigit then
      match rest with
      | c2 :: rest2 =>
        if c2.isDigit then
          match rest2 with
          | c3 :: _ =>
            if c3.isDigit then none
            else some (10 * digitVal c1 + digitVal c2, rest2)
          | [] => some (10 * digitVal c1 + digitVal c2, rest2)
        else some (digitVal c1, rest)
      | [] => some (digitVal c1, rest)
    else none
  | [] => none

def mmss (cs : List Char) : Option (ℕ × ℕ) :=
  match take12 (skipWs cs) with
  | some (mm, r1) =>
    match skipWs r1 with
    | ':' :: r2 =>
      match take12 (skipWs r2) with
      | some (ss, r3) => if skipWs r3 = [] then some (mm, ss) else none
      | none => none
    | _ => none
  | none => none

/-- `parse_pace_mmss_to_minutes` (lines 23-32).  The argument is the raw
cell: `none` is a NaN cell (the `pd.isna(x)` guard); a string cell is
stripped, tried as a Python float, then against the mm:ss regex.  A
matched seconds value outside [0,60) falls through to NaN. -/
def parse_pace_mmss_to_minutes (x : Option String) : PyVal :=
  match x with
  | none => PyVal.nan
  | some x0 =>
    let s := pyStrip x0
    match pyFloat s with
    | some v => v
    | none =>
      match mmss s.data with
      | some (mm, ss) =>
        if ss < 60 then PyVal.fin ((mm : ℚ) + (ss : ℚ) / 60) else PyVal.nan
      | none => PyVal.nan

/- Spec-side grammar, used only to state claim C2 as the spec words it. -/

def allDigits (cs : List Char) : Bool := cs.all Char.isDigit

def decTail : List Char → Bool
  | [] => true
  | '.' :: rest => allDigits rest
  | c :: rest => c.isDigit && decTail rest

def decCore : List Char → Bool
  | '.' :: rest => !rest.isEmpty && allDigits rest
  | c :: rest => c.isDigit && decTail rest
  | [] => false

/-- Follows the words of the spec, for comparison with the source parser:
"a plain decimal number" — optional sign, digits with an optional single
decimal point (d+, d+., d+.d+, .d+). -/
def specPlainDecimal (s : String) : Bool :=
  match s.data with
  | '+' :: rest => decCore rest
  | '-' :: rest => decCore rest
  | cs => decCore cs

/- ---------------------------------------------------------------------
Median and the two-tier imputation (impute_with_medians, lines 38-44).
A column is a list of cells (type, value): the group key `by="type"` is
the row's type string (never missing: astype(str) stringifies NaN).
--------------------------------------------------------------------- -/

/-- Standard numeric median (pandas `median` / `np.nanmedian` over the
present values): middle of the sorted list, or the average of the two
middle values for an even count; `none` on an empty list. -/
def medianSorted (s : List ℚ) (n : ℕ) : ℚ :=
  if n % 2 = 1 then s.getD (n / 2) 0
  else (s.getD (n / 2 - 1) 0 + s.getD (n / 2) 0) / 2

def median (xs : List ℚ) : Option ℚ :=
  if xs = [] then none
  else some (medianSorted (List.insertionSort (· ≤ ·) xs) xs.length)

abbrev Cell := String × Option ℚ

def groupVals (rows : List Cell) (t : String) : List ℚ :=
  (rows.filter (fun r => r.1 == t)).filterMap Prod.snd

/-- The group pass: `s.fillna(df.groupby(by)[col].transform('median'))`
(line 40).  A cell missing in a group with no present values stays
missing (the transform yields NaN there). -/
def fillGroup (rows : List Cell) : List Cell :=
  rows.map (fun r =>
    match r.2 with
    | some v => (r.1, some v)
    | none => (r.1, median (groupVals rows r.1)))

/-- `impute_with_medians` (lines 38-44): group-median pass, then — if
anything is still missing — a global `np.nanmedian` over the partially
filled series `s` (not over the original column), used when defined. -/
def impute_with_medians (rows : List Cell) : List Cell :=
  let s1 := fillGroup rows
  if s1.any (fun r => r.2.isNone) then
    match median (s1.filterMap Prod.snd) with
    | some g => s1.map (fun r => (r.1, some (r.2.getD g)))
    | none => s1
  else s1

/-- The fixed category-to-default table for rpe (line 318). -/
def type_rpe_default (t : String) : Option ℚ :=
  if t = "easy" then some 5
  else if t = "long" then some 6
  else if t = "tempo" then some 7
  else if t = "interval" then some 8
  else if t = "race" then some 9
  else if t = "test" then some 6
  else if t = "rest" then some 2
  else none

/-- Lines 319-320: rows with missing rpe get the table value of their
type; `Series.map` yields NaN for types outside the table, so those rows
stay missing. -/
def rpeDefaultFill (rows : List Cell) : List Cell :=
  rows.map (fun r =>
    match r.2 with
    | some v => (r.1, some v)
    | none => (r.1, type_rpe_default r.1))

/-- The full rpe imputation (lines 318-321): default table, then the
standard two-tier median fill. -/
def rpeStage (rows : List Cell) : List Cell :=
  impute_with_medians (rpeDefaultFill rows)

/- ---------------------------------------------------------------------
Week key (monday_of_week, lines 34-36) and the normalized record.
--------------------------------------------------------------------- -/

/-- pandas `Timestamp.weekday()`: 0 = Monday .. 6 = Sunday, computed from
the date part.  Day 0 = 1970-01-01 is a Thursday (index 3). -/
def weekdayZ (d : ℤ) : ℤ := (d + 3) % 7

/-- `monday_of_week` (lines 34-36):
`(ts - pd.Timedelta(days=ts.weekday())).normalize()`; NaT ↦ NaT. -/
def monday_of_week (ts : Option ℚ) : Option ℤ :=
  match ts with
  | none => none
  | some t => some ⌊t - (weekdayZ ⌊t⌋ : ℚ)⌋

/-- One row of the normalized dataframe (after lines 303-312): parsed
date (NaT = none), normalized type string, coerced numeric columns,
string-cast notes. -/
structure Row where
  date : Option ℚ
  type : String
  dist_km : Option ℚ
  pace_minpkm : Option ℚ
  hr_avg : Option ℚ
  cadence_spm : Option ℚ
  rpe : Option ℚ
  notes : String
deriving DecidableEq

/-- The `df["week"]` column (line 312). -/
def weekKey (r : Row) : Option ℤ := monday_of_week r.date

/- Sort by parsed date (line 304).  pandas `sort_values` sorts ascending
with NaT placed last (na_position='last'); the comparator below makes a
missing date greatest. -/

def dateLe (a b : Row) : Bool :=
  match a.date, b.date with
  | some x, some y => decide (x ≤ y)
  | some _, none => true
  | none, some _ => false
  | none, none => true

def dateR (a b : Row) : Prop := dateLe a b = true

instance : DecidableRel dateR :=
  fun a b => (inferInstance : Decidable (dateLe a b = true))

def sortByDate (rows : List Row) : List Row := List.insertionSort dateR rows

/- ---------------------------------------------------------------------
Aggregation (lines 323-329).
--------------------------------------------------------------------- -/

/-- pandas mean over the present values of a group (NaN-skipping);
an all-missing group yields NaN. -/
def pdMean (xs : List ℚ) : Option ℚ :=
  match xs with
  | [] => none
  | _ => some (xs.sum / xs.length)

/-- One record of the weekly table (lines 325-329).  `week` comes from
the "first" aggregation (first non-null), hence still an Option; the
serialization turns `none` into null. -/
structure WeeklyRec where
  week : Option ℤ
  dist_km : ℚ
  runs : ℕ
  pace_minpkm : Option ℚ
  rpe : Option ℚ
deriving DecidableEq

def weeklyGroup (rows : List Row) (w : ℤ) : List Row :=
  rows.filter (fun r => weekKey r == some w)

/-- The aggregations of line 326-327: `week=("week","first")` (first
non-null), `dist_km=("dist_km","sum")` (NaN-skipping sum, 0.0 when all
missing), `runs=("date","count")` (count of non-null dates), and the
NaN-skipping means of pace and rpe. -/
def weeklyRecOf (rows : List Row) (w : ℤ) : WeeklyRec :=
  let g := weeklyGroup rows w
  { week := (g.filterMap weekKey).head?
    dist_km := (g.filterMap Row.dist_km).sum
    runs := (g.filterMap Row.date).length
    pace_minpkm := pdMean (g.filterMap Row.pace_minpkm)
    rpe := pdMean (g.filterMap Row.rpe) }

/-- The group keys: `groupby` drops rows whose key is NaN (a NaT week
formats to NaN), keeps one group per distinct key and sorts the keys
ascending.  The source keys groups by `strftime("%Y-%m-%d")` of the
normalized week timestamp, which is in bijection with the day number, so
the day number itself serves as the key. -/
def weekKeys (rows : List Row) : List ℤ :=
  List.insertionSort (· ≤ ·) (rows.filterMap weekKey).dedup

def weeklyTable (rows : List Row) : List WeeklyRec :=
  (weekKeys rows).map (weeklyRecOf rows)

/- ISO calendar date rendering: strftime("%Y-%m-%d"). -/

def pad2 (n : ℕ) : String := if n < 10 then "0" ++ toString n else toString n

def pad4 (n : ℤ) : String :=
  if n < 0 then toString n
  else if n < 10 then "000" ++ toString n
  else if n < 100 then "00" ++ toString n
  else if n < 1000 then "0" ++ toString n
  else toString n

/-- Gregorian calendar date from days since 1970-01-01 (Howard Hinnant's
civil_from_days, the algorithm underlying the date libraries); returns
(year, month, day). -/
def civilFromDays (z : ℤ) : ℤ × ℤ × ℤ :=
  let z2 := z + 719468
  let era := Int.fdiv z2 146097
  let doe := z2 - era * 146097
  let yoe := Int.fdiv (doe - Int.fdiv doe 1460 + Int.fdiv doe 36524 - Int.fdiv doe 146096) 365
  let y := yoe + era * 400
  let doy := doe - (365 * yoe + Int.fdiv yoe 4 - Int.fdiv yoe 100)
  let mp := Int.fdiv (5 * doy + 2) 153
  let d := doy - Int.fdiv (153 * mp + 2) 5 + 1
  let m := if mp < 10 then mp + 3 else mp - 9
  (if m ≤ 2 then y + 1 else y, m, d)

def ymdString (z : ℤ) : String :=
  let c := civilFromDays z
  pad4 c.1 ++ "-" ++ pad2 c.2.1.toNat ++ "-" ++ pad2 c.2.2.toNat

/-- One record of the daily table (lines 323-324): the projection to
{date, type, dist_km, pace_minpkm, hr_avg, rpe, notes} with the date
rendered by strftime("%Y-%m-%d").  `Series.dt.strftime` maps NaT to NaN,
so a missing date yields a null date string. -/
structure DailyRec where
  date : Option String
  type : String
  dist_km : Option ℚ
  pace_minpkm : Option ℚ
  hr_avg : Option ℚ
  rpe : Option ℚ
  notes : String
deriving DecidableEq

def mkDaily (rows : List Row) : List DailyRec :=
  rows.map (fun r =>
    { date := r.date.map (fun t => ymdString ⌊t⌋)
      type := r.type
      dist_km := r.dist_km
      pace_minpkm := r.pace_minpkm
      hr_avg := r.hr_avg
      rpe := r.rpe
      notes := r.notes })

/- ---------------------------------------------------------------------
The main pipeline after normalization (lines 299-329): schema check,
sort, per-column imputation, aggregation.
--------------------------------------------------------------------- -/

def setPace (rows : List Row) : List Row :=
  (rows.zip (impute_with_medians (rows.map fun r => (r.type, r.pace_minpkm)))).map
    (fun p => { p.1 with pace_minpkm := p.2.2 })

def setHr (rows : List Row) : List Row :=
  (rows.zip (impute_with_medians (rows.map fun r => (r.type, r.hr_avg)))).map
    (fun p => { p.1 with hr_avg := p.2.2 })

def setCadence (rows : List Row) : List Row :=
  (rows.zip (impute_with_medians (rows.map fun r => (r.type, r.cadence_spm)))).map
    (fun p => { p.1 with cadence_spm := p.2.2 })

def setRpe (rows : List Row) : List Row :=
  (rows.zip (rpeStage (rows.map fun r => (r.type, r.rpe)))).map
    (fun p => { p.1 with rpe := p.2.2 })

/-- Lines 303-321 applied to already-parsed rows: date sort, then the
four imputations in source order. -/
def processRows (rows : List Row) : List Row :=
  setRpe (setCadence (setHr (setPace (sortByDate rows))))

def expectedCols : List String :=
  ["date", "type", "distance_km", "avg_pace", "avg_hr_bpm", "avg_cadence_spm", "rpe", "notes"]

/-- Line 300: `[c for c in expected if c not in df.columns]`. -/
def missingCols (cols : List String) : List String :=
  expectedCols.filter (fun c => !(cols.contains c))

def quoteCol (c : String) : String := "'" ++ c ++ "'"

/-- Python repr of a list of strings joins the quoted entries with ", ". -/
def joinCols : List String → String
  | [] => ""
  | [c] => quoteCol c
  | c :: rest => quoteCol c ++ ", " ++ joinCols rest

/-- Python renders the f-string of a list of strings as
`['a', 'b']`; the message of line 301. -/
def schemaMsg (miss : List String) : String :=
  "Missing columns: [" ++ joinCols miss ++ "]"

/-- Lines 298-329: the schema precondition is checked before any row
processing; on failure the ValueError carries `schemaMsg`. -/
def buildDashboard (cols : List String) (rows : List Row) :
    Except String (List DailyRec × List WeeklyRec) :=
  if missingCols cols = [] then
    let d := processRows rows
    Except.ok (mkDaily d, weeklyTable d)
  else Except.error (schemaMsg (missingCols cols))

/- ---------------------------------------------------------------------
String-column normalization (lines 305 and 311): a raw cell is either a
string or NaN.
--------------------------------------------------------------------- -/

inductive PCell where
  | pstr : String → PCell
  | pnan : PCell
deriving DecidableEq

/-- `astype(str)`: Python str() of NaN is the string "nan". -/
def astypeStr : PCell → PCell
  | PCell.pstr s => PCell.pstr s
  | PCell.pnan => PCell.pstr "nan"

/-- `.str` accessor methods map over string entries and keep NaN. -/
def cellMap (f : String → String) : PCell → PCell
  | PCell.pstr s => PCell.pstr (f s)
  | PCell.pnan => PCell.pnan

/-- `Series.fillna(v)` on a string column. -/
def fillna (v : String) : PCell → PCell
  | PCell.pnan => PCell.pstr v
  | c => c

/-- Line 305: `df["type"].astype(str).str.strip().str.lower()`. -/
def typeNorm (c : PCell) : PCell := cellMap lowerStr (cellMap pyStrip (astypeStr c))

/-- Line 311: `df["notes"].astype(str).fillna("")`. -/
def notesNorm (c : PCell) : PCell := fillna "" (astypeStr c)

/- ---------------------------------------------------------------------
Auxiliary notions used only in the statements and proofs below.
--------------------------------------------------------------------- -/

def digitChars : List Char := ['0', '1', '2', '3', '4', '5', '6', '7', '8', '9']

/-- Value of a (1-2 digit) decimal digit string. -/
def natOfDigits (cs : List Char) : ℕ := cs.foldl (fun a c => 10 * a + digitVal c) 0

/-- A continuation on which a digitpart scan stops without consuming. -/
def stopsD (rest : List Char) : Prop :=
  rest = [] ∨ ∃ c r, rest = c :: r ∧ c.isDigit = false ∧ c ≠ '_'

instance {ε α : Type} [DecidableEq ε] [DecidableEq α] : DecidableEq (Except ε α) := fun a b => by
  cases a <;> cases b
  · rename_i e1 e2
    exact decidable_of_iff (e1 = e2) (by simp)
  · exact isFalse (by simp)
  · exact isFalse (by simp)
  · rename_i a1 a2
    exact decidable_of_iff (a1 = a2) (by simp)

instance : IsTotal Row dateR := by
  constructor
  intro a b
  unfold dateR dateLe
  rcases a.date with _ | x <;> rcases b.date with _ | y <;> simp
  exact le_total x y

instance : IsTrans Row dateR := by
  constructor
  intro a b c
  unfold dateR dateLe
  rcases a.date with _ | x <;> rcases b.date with _ | y <;> rcases c.date with _ | z <;> simp
  exact le_trans


/- ---------------------------------------------------------------------
Supporting lemmas.
--------------------------------------------------------------------- -/

lemma digitChars_facts : ∀ c ∈ digitChars, c.isDigit = true ∧ isPySpace c = false ∧
    c ≠ '_' ∧ c ≠ '.' ∧ c ≠ ':' ∧ c ≠ '+' ∧ c ≠ '-' ∧ c ≠ 'i' ∧ c ≠ 'n' ∧
    Char.toLower c = c := by decide

lemma go_nil (acc : List ℕ) : digitsUGo acc [] = (acc, []) := by simp [digitsUGo]

lemma go_stop (acc : List ℕ) (c : Char) (r : List Char)
    (h1 : c.isDigit = false) (h2 : c ≠ '_') : digitsUGo acc (c :: r) = (acc, c :: r) := by
  rcases r with _ | ⟨c2, r2⟩
  · simp [digitsUGo, h1]
  · rw [digitsUGo.eq_def]
    split <;> simp_all

lemma go_digit (acc : List ℕ) (c : Char) (r : List Char)
    (h1 : c.isDigit = true) : digitsUGo acc (c :: r) = digitsUGo (acc ++ [digitVal c]) r := by
  have h2 : c ≠ '_' := by
    intro h; subst h; exact absurd h1 (by decide)
  rcases r with _ | ⟨c2, r2⟩
  · simp [digitsUGo, h1, go_nil]
  · rw [digitsUGo.eq_def]
    split <;> simp_all

lemma go_digits (tl : List Char) : ∀ (acc : List ℕ) (rest : List Char),
    (∀ c ∈ tl, c.isDigit = true) → stopsD rest →
    digitsUGo acc (tl ++ rest) = (acc ++ tl.map digitVal, rest) := by
  induction tl with
  | nil =>
    intro acc rest _ hstop
    rcases hstop with rfl | ⟨c, r, rfl, h1, h2⟩
    · simp [go_nil]
    · simp [go_stop acc c r h1 h2]
  | cons c tl ih =>
    intro acc rest hd hstop
    have hc : c.isDigit = true := hd c (by simp)
    rw [List.cons_append, go_digit acc c _ hc,
      ih (acc ++ [digitVal c]) rest (fun x hx => hd x (by simp [hx])) hstop]
    simp

lemma digitsU_digits (c : Char) (tl rest : List Char)
    (hd : ∀ x ∈ c :: tl, x.isDigit = true) (hstop : stopsD rest) :
    digitsU (c :: tl ++ rest) = some ((c :: tl).map digitVal, rest) := by
  have hc : c.isDigit = true := hd c (by simp)
  simp only [digitsU, List.cons_append, hc, if_true]
  rw [go_digits tl [digitVal c] rest (fun x hx => hd x (by simp [hx])) hstop]
  simp


lemma take12_one (c : Char) (rest : List Char) (h : c.isDigit = true)
    (hstop : rest = [] ∨ ∃ c2 r, rest = c2 :: r ∧ c2.isDigit = false) :
    take12 (c :: rest) = some (digitVal c, rest) := by
  rcases hstop with rfl | ⟨c2, r, rfl, h2⟩
  · simp [take12, h]
  · simp [take12, h, h2]

lemma take12_two (c1 c2 : Char) (rest : List Char)
    (h1 : c1.isDigit = true) (h2 : c2.isDigit = true)
    (hstop : rest = [] ∨ ∃ c3 r, rest = c3 :: r ∧ c3.isDigit = false) :
    take12 (c1 :: c2 :: rest) = some (10 * digitVal c1 + digitVal c2, rest) := by
  rcases hstop with rfl | ⟨c3, r, rfl, h3⟩
  · simp [take12, h1, h2]
  · simp [take12, h1, h2, h3]

lemma skipWs_nospace (cs : List Char)
    (h : ∀ c, cs.head? = some c → isPySpace c = false) : skipWs cs = cs := by
  rcases cs with _ | ⟨c, r⟩
  · simp [skipWs]
  · simp [skipWs, List.dropWhile_cons, h c rfl]

lemma stripChars_nospace (cs : List Char)
    (h : ∀ c ∈ cs, isPySpace c = false) : stripChars cs = cs := by
  unfold stripChars
  have h1 : cs.dropWhile isPySpace = cs := by
    rcases cs with _ | ⟨c, r⟩
    · simp
    · simp [List.dropWhile_cons, h c (by simp)]
  rw [h1]
  have h2 : cs.reverse.dropWhile isPySpace = cs.reverse := by
    rcases hr : cs.reverse with _ | ⟨c, r⟩
    · simp
    · have : c ∈ cs := by
        have : c ∈ cs.reverse := by rw [hr]; simp
        simpa using this
      simp [List.dropWhile_cons, h c this]
  rw [h2, List.reverse_reverse]


/-- The head of a digits-colon-digits string is a digit, so the
case-insensitive comparisons with "inf", "infinity", "nan" all fail. -/
lemma lowerEq_digit_head (c : Char) (r w : List Char)
    (hlow : Char.toLower c = c) (hne : ∀ w0 wr, w = w0 :: wr → c ≠ w0) :
    lowerEq (c :: r) w = false := by
  rcases w with _ | ⟨w0, wr⟩
  · simp [lowerEq]
  · simp only [lowerEq, List.map_cons, beq_eq_false_iff_ne]
    intro h
    injection h with h1 _
    exact absurd (hlow ▸ h1) (hne w0 wr rfl)

lemma mmss_two_groups (dm ds : List Char)
    (hm : ∀ c ∈ dm, c ∈ digitChars) (hs : ∀ c ∈ ds, c ∈ digitChars)
    (hm1 : 1 ≤ dm.length) (hm2 : dm.length ≤ 2)
    (hs1 : 1 ≤ ds.length) (hs2 : ds.length ≤ 2) :
    mmss (dm ++ ':' :: ds) = some (natOfDigits dm, natOfDigits ds) := by
  have hmD : ∀ c ∈ dm, c.isDigit = true := fun c hc => (digitChars_facts c (hm c hc)).1
  have hsD : ∀ c ∈ ds, c.isDigit = true := fun c hc => (digitChars_facts c (hs c hc)).1
  have hmS : ∀ c ∈ dm, isPySpace c = false := fun c hc => (digitChars_facts c (hm c hc)).2.1
  have hsS : ∀ c ∈ ds, isPySpace c = false := fun c hc => (digitChars_facts c (hs c hc)).2.1
  have hcolonD : (':' : Char).isDigit = false := by decide
  have hskipnil : skipWs ([] : List Char) = [] := by simp [skipWs]
  -- seconds part: take12 (skipWs ds) = some (natOfDigits ds, []) and skipWs [] = []
  have hsecond : take12 ds = some (natOfDigits ds, []) := by
    rcases ds with _ | ⟨d1, ds1⟩
    · simp at hs1
    · rcases ds1 with _ | ⟨d2, ds2⟩
      · rw [take12_one d1 [] (hsD d1 (by simp)) (Or.inl rfl)]
        simp [natOfDigits, digitVal]
      · rcases ds2 with _ | ⟨d3, ds3⟩
        · rw [take12_two d1 d2 [] (hsD d1 (by simp)) (hsD d2 (by simp)) (Or.inl rfl)]
          simp [natOfDigits, digitVal]
        · simp at hs2
  have hskipds : skipWs ds = ds := by
    apply skipWs_nospace
    intro c hc
    rcases ds with _ | ⟨d1, ds1⟩
    · simp at hc
    · simp at hc; subst hc; exact hsS d1 (by simp)
  -- now the minutes part
  rcases dm with _ | ⟨c1, dm1⟩
  · simp at hm1
  · rcases dm1 with _ | ⟨c2, dm2⟩
    · have ht : take12 (c1 :: ':' :: ds) = some (digitVal c1, ':' :: ds) :=
        take12_one c1 (':' :: ds) (hmD c1 (by simp)) (Or.inr ⟨':', ds, rfl, hcolonD⟩)
      have hskip1 : skipWs (c1 :: ':' :: ds) = c1 :: ':' :: ds := by
        apply skipWs_nospace; intro c hc; simp at hc; subst hc; exact hmS c1 (by simp)
      have hskip2 : skipWs (':' :: ds) = ':' :: ds := by
        apply skipWs_nospace; intro c hc; simp at hc; subst hc; decide
      simp only [mmss, List.cons_append, List.nil_append, hskip1, ht, hskip2, hskipds, hsecond, hskipnil]
      simp [natOfDigits, digitVal]
    · rcases dm2 with _ | ⟨c3, dm3⟩
      · have ht : take12 (c1 :: c2 :: ':' :: ds)
            = some (10 * digitVal c1 + digitVal c2, ':' :: ds) :=
          take12_two c1 c2 (':' :: ds) (hmD c1 (by simp)) (hmD c2 (by simp))
            (Or.inr ⟨':', ds, rfl, hcolonD⟩)
        have hskip1 : skipWs (c1 :: c2 :: ':' :: ds) = c1 :: c2 :: ':' :: ds := by
          apply skipWs_nospace; intro c hc; simp at hc; subst hc; exact hmS c1 (by simp)
        have hskip2 : skipWs (':' :: ds) = ':' :: ds := by
          apply skipWs_nospace; intro c hc; simp at hc; subst hc; decide
        simp only [mmss, List.cons_append, List.nil_append, hskip1, ht, hskip2, hskipds, hsecond, hskipnil]
        simp [natOfDigits, digitVal]
      · simp at hm2


lemma parseNumber_colon (c1 : Char) (tl ds : List Char)
    (hd : ∀ x ∈ c1 :: tl, x.isDigit = true) :
    parseNumber (c1 :: tl ++ ':' :: ds) = some ((digitsVal ((c1 :: tl).map digitVal) : ℚ), ':' :: ds) := by
  have hstop : stopsD (':' :: ds) := Or.inr ⟨':', ds, rfl, by decide, by decide⟩
  have hU := digitsU_digits c1 tl (':' :: ds) hd hstop
  simp only [parseNumber, hU]
  simp [exponentPart]

lemma pyFloat_colon (st : String) (dm ds : List Char)
    (hdata : st.data = dm ++ ':' :: ds)
    (hm : ∀ c ∈ dm, c ∈ digitChars) (hs : ∀ c ∈ ds, c ∈ digitChars)
    (hm1 : 1 ≤ dm.length) :
    pyFloat st = none := by
  have hnosp : ∀ c ∈ dm ++ ':' :: ds, isPySpace c = false := by
    intro c hc
    rcases List.mem_append.1 hc with h | h
    · exact (digitChars_facts c (hm c h)).2.1
    · rcases List.mem_cons.1 h with rfl | h2
      · decide
      · exact (digitChars_facts c (hs c h2)).2.1
  rcases dm with _ | ⟨c1, tl⟩
  · simp at hm1
  · have hfacts := digitChars_facts c1 (hm c1 (by simp))
    unfold pyFloat
    rw [hdata, stripChars_nospace _ hnosp]
    have hgoal : pyFloatCore false (c1 :: tl ++ ':' :: ds) = none := by
      have hinf : lowerEq (c1 :: (tl ++ ':' :: ds)) "inf".data = false :=
        lowerEq_digit_head c1 _ _ hfacts.2.2.2.2.2.2.2.2.2
          (by intro w0 wr hw; injection hw with h1 _; subst h1; exact hfacts.2.2.2.2.2.2.2.1)
      have hinfy : lowerEq (c1 :: (tl ++ ':' :: ds)) "infinity".data = false :=
        lowerEq_digit_head c1 _ _ hfacts.2.2.2.2.2.2.2.2.2
          (by intro w0 wr hw; injection hw with h1 _; subst h1; exact hfacts.2.2.2.2.2.2.2.1)
      have hnan : lowerEq (c1 :: (tl ++ ':' :: ds)) "nan".data = false :=
        lowerEq_digit_head c1 _ _ hfacts.2.2.2.2.2.2.2.2.2
          (by intro w0 wr hw; injection hw with h1 _; subst h1; exact hfacts.2.2.2.2.2.2.2.2.1)
      have hnum := parseNumber_colon c1 tl ds
        (fun x hx => (digitChars_facts x (hm x hx)).1)
      simp only [pyFloatCore, hinf, hinfy, hnan, List.cons_append] at hnum ⊢
      simp [hnum]
    have hc1plus : c1 ≠ '+' := hfacts.2.2.2.2.2.1
    have hc1minus : c1 ≠ '-' := hfacts.2.2.2.2.2.2.1
    rcases htl : tl ++ ':' :: ds with _ | ⟨c2, r2⟩
    · simp at htl
    · rw [List.cons_append, htl] at hgoal ⊢
      split <;> simp_all


/-- On a digits:digits string (1-2 digits each), the float attempt fails and
the regex route yields minutes + seconds/60 whenever seconds < 60. -/
lemma parse_pace_two_groups (st : String) (dm ds : List Char)
    (hdata : st.data = dm ++ ':' :: ds)
    (hm : ∀ c ∈ dm, c ∈ digitChars) (hs : ∀ c ∈ ds, c ∈ digitChars)
    (hm1 : 1 ≤ dm.length) (hm2 : dm.length ≤ 2)
    (hs1 : 1 ≤ ds.length) (hs2 : ds.length ≤ 2)
    (hlt : natOfDigits ds < 60) :
    parse_pace_mmss_to_minutes (some st)
      = PyVal.fin ((natOfDigits dm : ℚ) + (natOfDigits ds : ℚ) / 60) := by
  have hnosp : ∀ c ∈ dm ++ ':' :: ds, isPySpace c = false := by
    intro c hc
    rcases List.mem_append.1 hc with h | h
    · exact (digitChars_facts c (hm c h)).2.1
    · rcases List.mem_cons.1 h with rfl | h2
      · decide
      · exact (digitChars_facts c (hs c h2)).2.1
  have hstrip : pyStrip st = String.mk (dm ++ ':' :: ds) := by
    unfold pyStrip
    rw [hdata, stripChars_nospace _ hnosp]
  have hfl : pyFloat (String.mk (dm ++ ':' :: ds)) = none :=
    pyFloat_colon _ dm ds rfl hm hs hm1
  have hmm := mmss_two_groups dm ds hm hs hm1 hm2 hs1 hs2
  simp only [parse_pace_mmss_to_minutes]
  rw [hstrip, hfl]
  change (match mmss (dm ++ ':' :: ds) with
    | some (mm, ss) => if ss < 60 then PyVal.fin ((mm : ℚ) + (ss : ℚ) / 60) else PyVal.nan
    | none => PyVal.nan) = _
  rw [hmm]
  simp [hlt]

/-- digitChar facts for actual digits. -/
lemma digitChar_mem : ∀ d : ℕ, d < 10 →
    Nat.digitChar d ∈ digitChars ∧ digitVal (Nat.digitChar d) = d := by decide

lemma repr_data_lt10 (m : ℕ) (h : m < 10) : (Nat.repr m).data = [Nat.digitChar m] := by
  have hdiv : m / 10 = 0 := Nat.div_eq_of_lt (by omega)
  have hmod : m % 10 = m := Nat.mod_eq_of_lt h
  simp [Nat.repr, Nat.toDigits, Nat.toDigitsCore, hdiv, hmod, List.asString]

lemma repr_data_lt100 (m : ℕ) (h1 : 10 ≤ m) (h2 : m < 100) :
    (Nat.repr m).data = [Nat.digitChar (m / 10), Nat.digitChar (m % 10)] := by
  obtain ⟨k, rfl⟩ : ∃ k, m = k + 10 := ⟨m - 10, by omega⟩
  have hd1 : (k + 10) / 10 ≠ 0 := by omega
  have hfuel : k + 10 = (k + 9) + 1 := by omega
  have hd2 : (k + 10) / 10 / 10 = 0 := by omega
  have hd3 : (k + 10) / 10 % 10 = (k + 10) / 10 := Nat.mod_eq_of_lt (by omega)
  simp only [Nat.repr, Nat.toDigits, List.asString]
  rw [Nat.toDigitsCore]
  simp only [hd1, if_false]
  rw [hfuel, Nat.toDigitsCore]
  simp [hd2, hd3]
  all_goals congr 1
  all_goals omega

lemma repr_digits (m : ℕ) (h : m < 100) :
    (∀ c ∈ (Nat.repr m).data, c ∈ digitChars) ∧ 1 ≤ (Nat.repr m).data.length ∧
      (Nat.repr m).data.length ≤ 2 ∧ natOfDigits (Nat.repr m).data = m := by
  rcases Nat.lt_or_ge m 10 with h10 | h10
  · rw [repr_data_lt10 m h10]
    have := digitChar_mem m h10
    refine ⟨by simpa using this.1, by simp, by simp, ?_⟩
    simp [natOfDigits, this.2]
  · rw [repr_data_lt100 m h10 h]
    have hA := digitChar_mem (m / 10) (by omega)
    have hB := digitChar_mem (m % 10) (by omega)
    refine ⟨?_, by simp, by simp, ?_⟩
    · intro c hc
      rcases List.mem_cons.1 hc with rfl | hc2
      · exact hA.1
      · rcases List.mem_cons.1 hc2 with rfl | hc3
        · exact hB.1
        · simp at hc3
    · simp [natOfDigits, hA.2, hB.2]
      omega

lemma median_ne_none {xs : List ℚ} (h : xs ≠ []) : ∃ q, median xs = some q :=
  ⟨_, by rw [median, if_neg h]⟩

lemma impute_eq (rows : List Cell) : impute_with_medians rows =
    if (fillGroup rows).any (fun r => r.2.isNone) then
      match median ((fillGroup rows).filterMap Prod.snd) with
      | some g => (fillGroup rows).map (fun r => (r.1, some (r.2.getD g)))
      | none => fillGroup rows
    else fillGroup rows := rfl

lemma list_map_self {α : Type} {f : α → α} : ∀ l : List α, (∀ x ∈ l, f x = x) → l.map f = l := by
  intro l
  induction l with
  | nil => intro _; rfl
  | cons a l ih =>
    intro h
    rw [List.map_cons, h a (by simp), ih (fun x hx => h x (by simp [hx]))]

lemma fillGroup_present {rows : List Cell} {i : ℕ} {t : String} {v : ℚ}
    (h : rows[i]? = some (t, some v)) : (fillGroup rows)[i]? = some (t, some v) := by
  unfold fillGroup
  rw [List.getElem?_map, h]
  rfl

lemma fillGroup_has_present {rows : List Cell} {r : Cell} (hr : r ∈ rows) {v : ℚ}
    (hv : r.2 = some v) : (r.1, some v) ∈ fillGroup rows := by
  unfold fillGroup
  refine List.mem_map.2 ⟨r, hr, ?_⟩
  rw [hv]

lemma impute_present {rows : List Cell} {i : ℕ} {t : String} {v : ℚ}
    (h : rows[i]? = some (t, some v)) :
    (impute_with_medians rows)[i]? = some (t, some v) := by
  have h1 := fillGroup_present h
  rw [impute_eq]
  split
  · split
    · rw [List.getElem?_map, h1]
      rfl
    · exact h1
  · exact h1

lemma impute_total {rows : List Cell} (hex : ∃ r ∈ rows, r.2 ≠ none) :
    ∀ r ∈ impute_with_medians rows, r.2 ≠ none := by
  obtain ⟨r, hr, hv0⟩ := hex
  obtain ⟨v, hv⟩ := Option.ne_none_iff_exists'.1 hv0
  have hmem : (r.1, some v) ∈ fillGroup rows := fillGroup_has_present hr hv
  have hne : (fillGroup rows).filterMap Prod.snd ≠ [] :=
    List.ne_nil_of_mem (List.mem_filterMap.2 ⟨(r.1, some v), hmem, rfl⟩)
  obtain ⟨g, hg⟩ := median_ne_none hne
  intro x hx
  rw [impute_eq, hg] at hx
  by_cases hany : (fillGroup rows).any (fun r => r.2.isNone) = true
  · rw [if_pos hany] at hx
    obtain ⟨y, _, rfl⟩ := List.mem_map.1 hx
    simp
  · rw [if_neg hany] at hx
    have hfalse : (fillGroup rows).any (fun r => r.2.isNone) = false :=
      Bool.eq_false_iff.mpr hany
    have := List.any_eq_false.1 hfalse x hx
    simpa using this

lemma impute_all_none {rows : List Cell} (h : ∀ r ∈ rows, r.2 = none) :
    impute_with_medians rows = rows := by
  have hfg : fillGroup rows = rows := by
    unfold fillGroup
    apply list_map_self
    intro r hr
    rw [h r hr]
    have hg : groupVals rows r.1 = [] := by
      unfold groupVals
      apply List.filterMap_eq_nil_iff.2
      intro a ha
      exact h a (List.mem_of_mem_filter ha)
    rw [hg]
    show (r.1, median []) = r
    rw [show median [] = none from rfl, ← h r hr]
  rw [impute_eq, hfg]
  have hfm : rows.filterMap Prod.snd = [] :=
    List.filterMap_eq_nil_iff.2 h
  rw [hfm]
  split
  · rfl
  · rfl

lemma rpeDefaultFill_present {rows : List Cell} {i : ℕ} {t : String} {v : ℚ}
    (h : rows[i]? = some (t, some v)) : (rpeDefaultFill rows)[i]? = some (t, some v) := by
  unfold rpeDefaultFill
  rw [List.getElem?_map, h]
  rfl

lemma rpeDefaultFill_missing {rows : List Cell} {i : ℕ} {t : String}
    (h : rows[i]? = some (t, none)) : (rpeDefaultFill rows)[i]? = some (t, type_rpe_default t) := by
  unfold rpeDefaultFill
  rw [List.getElem?_map, h]
  rfl

lemma rpeStage_present {rows : List Cell} {i : ℕ} {t : String} {v : ℚ}
    (h : rows[i]? = some (t, some v)) :
    (rpeStage rows)[i]? = some (t, some v) :=
  impute_present (rpeDefaultFill_present h)

lemma rpeStage_total {rows : List Cell} (hex : ∃ r ∈ rows, r.2 ≠ none) :
    ∀ r ∈ rpeStage rows, r.2 ≠ none := by
  apply impute_total
  obtain ⟨r, hr, hv0⟩ := hex
  obtain ⟨v, hv⟩ := Option.ne_none_iff_exists'.1 hv0
  refine ⟨(r.1, some v), ?_, by simp⟩
  unfold rpeDefaultFill
  refine List.mem_map.2 ⟨r, hr, ?_⟩
  rw [hv]


lemma impute_global_fill {rows : List Cell} {i : ℕ} {t : String}
    (h : (fillGroup rows)[i]? = some (t, none)) :
    (impute_with_medians rows)[i]?
      = some (t, median ((fillGroup rows).filterMap Prod.snd)) := by
  have hmem : (t, (none : Option ℚ)) ∈ fillGroup rows := List.getElem?_mem h
  have hany : (fillGroup rows).any (fun r => r.2.isNone) = true :=
    List.any_eq_true.2 ⟨(t, none), hmem, by simp⟩
  rw [impute_eq, if_pos hany]
  cases hmed : median ((fillGroup rows).filterMap Prod.snd) with
  | some g =>
    rw [List.getElem?_map, h]
    rfl
  | none =>
    rw [h]

lemma sortByDate_perm (rows : List Row) : List.Perm (sortByDate rows) rows :=
  List.perm_insertionSort dateR rows

lemma sortByDate_sorted (rows : List Row) :
    (sortByDate rows).Pairwise (fun a b =>
      (∀ x y, a.date = some x → b.date = some y → x ≤ y) ∧
      (a.date = none → b.date = none)) := by
  have h := List.sorted_insertionSort dateR rows
  refine h.imp ?_
  intro a b hab
  unfold dateR dateLe at hab
  constructor
  · intro x y hx hy
    rw [hx, hy] at hab
    simpa using hab
  · intro hx
    rw [hx] at hab
    rcases hb : b.date with _ | y
    · rfl
    · rw [hb] at hab
      simp at hab

lemma weekKey_date_present {r : Row} {w : ℤ} (h : weekKey r = some w) :
    ∃ t, r.date = some t := by
  unfold weekKey monday_of_week at h
  rcases hd : r.date with _ | t
  · rw [hd] at h; exact absurd h (by simp)
  · exact ⟨t, rfl⟩

lemma weeklyGroup_mem {rows : List Row} {w : ℤ} {r : Row} :
    r ∈ weeklyGroup rows w ↔ r ∈ rows ∧ weekKey r = some w := by
  unfold weeklyGroup
  rw [List.mem_filter]
  simp

lemma weekKeys_mem {rows : List Row} {w : ℤ} :
    w ∈ weekKeys rows ↔ some w ∈ rows.map weekKey := by
  unfold weekKeys
  rw [List.mem_insertionSort, List.mem_dedup, List.mem_filterMap]
  constructor
  · rintro ⟨r, hr, hw⟩
    exact List.mem_map.2 ⟨r, hr, hw⟩
  · intro h
    obtain ⟨r, hr, hw⟩ := List.mem_map.1 h
    exact ⟨r, hr, hw⟩

lemma head?_filterMap_const {g : List Row} {w : ℤ} (hne : g ≠ [])
    (hall : ∀ r ∈ g, weekKey r = some w) : (g.filterMap weekKey).head? = some w := by
  rcases g with _ | ⟨r, rest⟩
  · exact absurd rfl hne
  · rw [List.filterMap_cons, hall r (by simp)]
    rfl

lemma filterMap_length_of_forall_some {g : List Row}
    (hall : ∀ r ∈ g, ∃ t, r.date = some t) :
    (g.filterMap Row.date).length = g.length := by
  induction g with
  | nil => rfl
  | cons r rest ih =>
    obtain ⟨t, ht⟩ := hall r (by simp)
    rw [List.filterMap_cons, ht]
    simp only [List.length_cons]
    rw [ih (fun x hx => hall x (by simp [hx]))]

lemma filterMap_sum_getD (g : List Row) :
    (g.filterMap Row.dist_km).sum = (g.map (fun r => r.dist_km.getD 0)).sum := by
  induction g with
  | nil => rfl
  | cons r rest ih =>
    rcases hd : r.dist_km with _ | v
    · rw [List.filterMap_cons, hd]
      simp [ih, hd]
    · rw [List.filterMap_cons, hd]
      simp [ih, hd]

lemma weeklyRecOf_week {rows : List Row} {w : ℤ} (h : w ∈ weekKeys rows) :
    (weeklyRecOf rows w).week = some w := by
  obtain ⟨r, hr, hw⟩ : ∃ r ∈ rows, weekKey r = some w := by
    have := weekKeys_mem.1 h
    obtain ⟨r, hr, hw⟩ := List.mem_map.1 this
    exact ⟨r, hr, hw⟩
  have hne : weeklyGroup rows w ≠ [] :=
    List.ne_nil_of_mem (weeklyGroup_mem.2 ⟨hr, hw⟩)
  have hall : ∀ x ∈ weeklyGroup rows w, weekKey x = some w :=
    fun x hx => (weeklyGroup_mem.1 hx).2
  show (weeklyGroup rows w |>.filterMap weekKey).head? = some w
  exact head?_filterMap_const hne hall

lemma weeklyRecOf_runs {rows : List Row} (w : ℤ) :
    (weeklyRecOf rows w).runs = (weeklyGroup rows w).length := by
  show ((weeklyGroup rows w).filterMap Row.date).length = _
  apply filterMap_length_of_forall_some
  intro r hr
  exact weekKey_date_present (weeklyGroup_mem.1 hr).2

lemma weeklyTable_weeks (rows : List Row) :
    (weeklyTable rows).map (fun rec => rec.week) = (weekKeys rows).map some := by
  unfold weeklyTable
  rw [List.map_map]
  apply List.map_congr_left
  intro w hw
  exact weeklyRecOf_week hw


lemma joinCols_has (c : String) : ∀ xs : List String, c ∈ xs →
    ∃ p q, joinCols xs = p ++ quoteCol c ++ q := by
  intro xs
  induction xs with
  | nil => intro h; simp at h
  | cons x rest ih =>
    intro h
    rcases List.mem_cons.1 h with rfl | hrest
    · rcases rest with _ | ⟨y, ys⟩
      · exact ⟨"", "", by simp [joinCols]⟩
      · refine ⟨"", ", " ++ joinCols (y :: ys), ?_⟩
        rw [joinCols]
        · simp [String.append_assoc]
        · simp
    · rcases rest with _ | ⟨y, ys⟩
      · simp at hrest
      · obtain ⟨p, q, hpq⟩ := ih hrest
        refine ⟨quoteCol x ++ ", " ++ p, q, ?_⟩
        rw [joinCols, hpq]
        · simp [String.append_assoc]
        · simp

lemma missingCols_mem {cols : List String} {c : String} :
    c ∈ missingCols cols ↔ c ∈ expectedCols ∧ c ∉ cols := by
  unfold missingCols
  rw [List.mem_filter]
  simp

lemma buildDashboard_error {cols : List String} (rows : List Row)
    (h : missingCols cols ≠ []) :
    buildDashboard cols rows = Except.error (schemaMsg (missingCols cols)) := by
  unfold buildDashboard
  rw [if_neg h]

lemma schemaMsg_names {cols : List String} {c : String} (hc : c ∈ missingCols cols) :
    ∃ p q, schemaMsg (missingCols cols) = p ++ quoteCol c ++ q := by
  obtain ⟨p, q, hpq⟩ := joinCols_has c _ hc
  refine ⟨"Missing columns: [" ++ p, q ++ "]", ?_⟩
  unfold schemaMsg
  rw [hpq]
  simp [String.append_assoc]


/- ---------------------------------------------------------------------
Length preservation through the pipeline.
--------------------------------------------------------------------- -/

lemma fillGroup_length (rows : List Cell) : (fillGroup rows).length = rows.length :=
  List.length_map _ _

lemma impute_length (rows : List Cell) :
    (impute_with_medians rows).length = rows.length := by
  rw [impute_eq]
  split
  · split
    · rw [List.length_map, fillGroup_length]
    · exact fillGroup_length rows
  · exact fillGroup_length rows

lemma rpeStage_length (rows : List Cell) : (rpeStage rows).length = rows.length := by
  unfold rpeStage
  rw [impute_length]
  exact List.length_map _ _

lemma setPace_length (rows : List Row) : (setPace rows).length = rows.length := by
  unfold setPace
  rw [List.length_map, List.length_zip, impute_length, List.length_map, min_self]

lemma setHr_length (rows : List Row) : (setHr rows).length = rows.length := by
  unfold setHr
  rw [List.length_map, List.length_zip, impute_length, List.length_map, min_self]

lemma setCadence_length (rows : List Row) : (setCadence rows).length = rows.length := by
  unfold setCadence
  rw [List.length_map, List.length_zip, impute_length, List.length_map, min_self]

lemma setRpe_length (rows : List Row) : (setRpe rows).length = rows.length := by
  unfold setRpe
  rw [List.length_map, List.length_zip, rpeStage_length, List.length_map, min_self]

lemma processRows_length (rows : List Row) : (processRows rows).length = rows.length := by
  unfold processRows
  rw [setRpe_length, setCadence_length, setHr_length, setPace_length]
  exact (sortByDate_perm rows).length_eq

lemma mkDaily_length (rows : List Row) : (mkDaily rows).length = rows.length :=
  List.length_map _ _

/- ---------------------------------------------------------------------
The claims.
--------------------------------------------------------------------- -/

/-- C1: Imputer postcondition for each imputed field (pace, hr, cadence, rpe):
imputation never changes a value that was present before, and whenever the
field has at least one present value in the dataset, the field is present in
every row afterwards (absent only when the field has zero present values
everywhere; for pace/hr/cadence an all-missing column is left unchanged).
The rpe stage (default table, then two-tier fill) satisfies the same
postconditions. -/
theorem claim_C1_imputer_postconditions (rows : List Cell) :
    (∀ (i : ℕ) (t : String) (v : ℚ), rows[i]? = some (t, some v) →
        (impute_with_medians rows)[i]? = some (t, some v)) ∧
    ((∃ r ∈ rows, r.2 ≠ none) → ∀ r ∈ impute_with_medians rows, r.2 ≠ none) ∧
    ((∀ r ∈ rows, r.2 = none) → impute_with_medians rows = rows) ∧
    (∀ (i : ℕ) (t : String) (v : ℚ), rows[i]? = some (t, some v) → (rpeStage rows)[i]? = some (t, some v)) ∧
    ((∃ r ∈ rows, r.2 ≠ none) → ∀ r ∈ rpeStage rows, r.2 ≠ none) :=
  ⟨fun _ _ _ h => impute_present h,
   impute_total,
   impute_all_none,
   fun _ _ _ h => rpeStage_present h,
   rpeStage_total⟩

/-- C1 witness: on a concrete two-row column the present value 5 survives and
imputation is total. -/
theorem claim_C1_witness :
    (impute_with_medians [("easy", some 5), ("easy", none)])[0]? = some ("easy", some 5) ∧
    ∀ r ∈ impute_with_medians [("easy", some 5), ("easy", none)], r.2 ≠ none :=
  ⟨(claim_C1_imputer_postconditions _).1 0 "easy" 5 rfl,
   (claim_C1_imputer_postconditions _).2.1 ⟨("easy", some 5), by simp, by simp⟩⟩

/-- C2 counterexample: the claim says every input other than a plain decimal
number or a 1-2 digit m:s pattern yields missing.  But Python float() also
accepts underscored digit groups and infinity words: "1_0" parses to 10.0 and
"inf" to a present infinity, although neither is a plain decimal number
(specPlainDecimal, written from the spec) nor an m:s match. -/
theorem claim_C2_counterexample :
    parse_pace_mmss_to_minutes (some "1_0") = PyVal.fin 10 ∧
    parse_pace_mmss_to_minutes (some "inf") = PyVal.infty false ∧
    specPlainDecimal "1_0" = false ∧ specPlainDecimal "inf" = false ∧
    mmss "1_0".data = none ∧ mmss "inf".data = none ∧
    PyVal.fin 10 ≠ PyVal.nan ∧ PyVal.infty false ≠ PyVal.nan := by
  refine ⟨?_, ?_, ?_, ?_, ?_, ?_, ?_, ?_⟩ <;> with_unfolding_all decide

/-- C2 amended: the pace parser tries Python float() first — which accepts
plain decimals, and also scientific notation, underscores between digits and
the words inf/infinity/nan (nan parses to missing, infinity to a present
non-finite value) — and then the whitespace-tolerant m:s regex with 1-2 digit
fields and seconds in [0,60); "6.5" parses to 6.5 directly, every m:s with
m,s in [0,59] parses to m + s/60, and seconds ≥ 60, multiple colons or
non-numeric text yield missing. -/
theorem claim_C2_pace_grammar_amended :
    (parse_pace_mmss_to_minutes (some "6.5") = PyVal.fin (13 / 2)) ∧
    (∀ m : ℕ, m < 60 → ∀ s : ℕ, s < 60 →
      parse_pace_mmss_to_minutes (some (Nat.repr m ++ ":" ++ Nat.repr s))
        = PyVal.fin ((m : ℚ) + (s : ℚ) / 60)) ∧
    (parse_pace_mmss_to_minutes (some "6:60") = PyVal.nan) ∧
    (parse_pace_mmss_to_minutes (some "6:99") = PyVal.nan) ∧
    (parse_pace_mmss_to_minutes (some "5:6:7") = PyVal.nan) ∧
    (parse_pace_mmss_to_minutes (some "abc") = PyVal.nan) ∧
    (parse_pace_mmss_to_minutes none = PyVal.nan) ∧
    (parse_pace_mmss_to_minutes (some "1_0") = PyVal.fin 10) ∧
    (parse_pace_mmss_to_minutes (some "1e3") = PyVal.fin 1000) ∧
    (parse_pace_mmss_to_minutes (some "inf") = PyVal.infty false) ∧
    (parse_pace_mmss_to_minutes (some "nan") = PyVal.nan) ∧
    (parse_pace_mmss_to_minutes (some " 6 : 30 ") = PyVal.fin (13 / 2)) := by
  refine ⟨by with_unfolding_all decide, ?_, by with_unfolding_all decide,
    by with_unfolding_all decide, by with_unfolding_all decide,
    by with_unfolding_all decide, by with_unfolding_all decide,
    by with_unfolding_all decide, by with_unfolding_all decide,
    by with_unfolding_all decide, by with_unfolding_all decide,
    by with_unfolding_all decide⟩
  intro m hm s hs
  have hrm := repr_digits m (by omega)
  have hrs := repr_digits s (by omega)
  have hdata : (Nat.repr m ++ ":" ++ Nat.repr s).data
      = (Nat.repr m).data ++ ':' :: (Nat.repr s).data := by
    simp [String.data_append]
  have hlt : natOfDigits (Nat.repr s).data < 60 := by rw [hrs.2.2.2]; exact hs
  have h := parse_pace_two_groups _ _ _ hdata hrm.1 hrs.1 hrm.2.1 hrm.2.2.1
    hrs.2.1 hrs.2.2.1 hlt
  rw [h, hrm.2.2.2, hrs.2.2.2]

/-- C2 witness: the m:s branch of the amended theorem at 6:30. -/
theorem claim_C2_witness :
    parse_pace_mmss_to_minutes (some (Nat.repr 6 ++ ":" ++ Nat.repr 30))
      = PyVal.fin ((6 : ℚ) + (30 : ℚ) / 60) :=
  claim_C2_pace_grammar_amended.2.1 6 (by norm_num) 30 (by norm_num)

/-- C3 counterexample: with easy = {5, 6, missing}, tempo = {10} and one
missing long row, the group pass fills the easy gap with 5.5; the long row
then receives the median of the partially-filled series
(5, 6, 5.5, 10 → 5.75), not the median of the originally-present values
(5, 6, 10 → 6) that the claim describes. -/
theorem claim_C3_counterexample :
    (impute_with_medians
        [("easy", some 5), ("easy", some 6), ("easy", none), ("tempo", some 10),
         ("long", none)])[4]?
      = some ("long", some (23 / 4)) ∧
    median (([("easy", some (5 : ℚ)), ("easy", some 6), ("easy", none),
        ("tempo", some 10), ("long", none)] : List Cell).filterMap Prod.snd)
      = some 6 ∧
    ((23 : ℚ) / 4) ≠ 6 := by
  refine ⟨?_, ?_, ?_⟩ <;> with_unfolding_all decide

/-- C3 amended: an entry still missing after the group pass is filled with
the median over the present values of the partially-filled series (the
originally-present values together with the group-median fills), ignoring
grouping; on the claim's own dataset (easy = {5.0, 6.0}, long empty) the two
notions agree and the long row receives 5.5. -/
theorem claim_C3_global_fallback_amended (rows : List Cell) :
    (∀ (i : ℕ) (t : String), (fillGroup rows)[i]? = some (t, none) →
      (impute_with_medians rows)[i]?
        = some (t, median ((fillGroup rows).filterMap Prod.snd))) ∧
    impute_with_medians [("easy", some 5), ("easy", some 6), ("long", none)]
      = [("easy", some 5), ("easy", some 6), ("long", some (11 / 2))] ∧
    median (([("easy", some (5 : ℚ)), ("easy", some 6),
        ("long", none)] : List Cell).filterMap Prod.snd) = some (11 / 2) :=
  ⟨fun _ _ h => impute_global_fill h,
   by with_unfolding_all decide,
   by with_unfolding_all decide⟩

/-- C3 witness: the general fallback statement applied to the claim's
dataset at the missing long row. -/
theorem claim_C3_witness :
    (impute_with_medians [("easy", some 5), ("easy", some 6), ("long", none)])[2]?
      = some ("long", median ((fillGroup [("easy", some 5), ("easy", some 6),
          ("long", none)]).filterMap Prod.snd)) :=
  (claim_C3_global_fallback_amended _).1 2 "long" (by with_unfolding_all decide)


/-- C4: the weekly table has one record per distinct present week key, in
ascending key order; rows with a missing week key are excluded; each record's
week field is the (non-null) group key, runs is the group size, and dist_km
is the sum of the group's distances with absent distances contributing zero;
the claim's example (one 5.0 km run and one distance-less run in the same
week) yields dist_km = 5.0 and runs = 2.  dist_km and runs are total by
construction, so week/dist_km/runs are never null. -/
theorem claim_C4_weekly_table (rows : List Row) :
    ((weeklyTable rows).map (fun rec => rec.week) = (weekKeys rows).map some) ∧
    (∀ w : ℤ, w ∈ weekKeys rows ↔ some w ∈ rows.map weekKey) ∧
    (∀ w ∈ weekKeys rows,
        (weeklyRecOf rows w).week = some w ∧
        (weeklyRecOf rows w).runs = (weeklyGroup rows w).length ∧
        (weeklyRecOf rows w).dist_km
          = ((weeklyGroup rows w).map (fun r => r.dist_km.getD 0)).sum) ∧
    ((weeklyTable [⟨some 4, "easy", some 5, some 6, none, none, some 5, ""⟩,
        ⟨some 10, "easy", none, none, none, none, none, ""⟩]).map
        (fun rec => (rec.week, rec.dist_km, rec.runs)) = [(some 4, 5, 2)]) :=
  ⟨weeklyTable_weeks rows,
   fun _ => weekKeys_mem,
   fun w hw => ⟨weeklyRecOf_week hw, weeklyRecOf_runs w, filterMap_sum_getD _⟩,
   by with_unfolding_all decide⟩

/-- C4 witness: the per-group facts at the concrete Monday-aligned key 4. -/
theorem claim_C4_witness :
    (weeklyRecOf [⟨some 4, "easy", some 5, some 6, none, none, some 5, ""⟩,
        ⟨some 10, "easy", none, none, none, none, none, ""⟩] 4).week = some 4 :=
  ((claim_C4_weekly_table _).2.2.1 4 (by with_unfolding_all decide)).1

/-- C5: the week key of a present date is the Monday of its week — the date
minus its weekday index (0 = Monday .. 6 = Sunday), normalized to midnight —
so a Monday and the following Sunday share their week start while the next
Monday starts a new week; a missing date yields a missing week key. -/
theorem claim_C5_week_key (t : ℚ) (d : ℤ) (hd : weekdayZ d = 0) :
    monday_of_week none = none ∧
    monday_of_week (some t) = some (⌊t⌋ - weekdayZ ⌊t⌋) ∧
    (0 ≤ weekdayZ ⌊t⌋ ∧ weekdayZ ⌊t⌋ ≤ 6) ∧
    (∀ k : ℤ, 0 ≤ k → k ≤ 6 → monday_of_week (some ((d + k : ℤ) : ℚ)) = some d) ∧
    weekdayZ (d + 7) = 0 ∧
    monday_of_week (some ((d + 7 : ℤ) : ℚ)) = some (d + 7) ∧
    d + 7 ≠ d := by
  have hflo : ∀ z : ℤ, monday_of_week (some ((z : ℤ) : ℚ)) = some (z - weekdayZ z) := by
    intro z
    simp only [monday_of_week, Int.floor_sub_int, Int.floor_intCast]
  refine ⟨rfl, ?_, ?_, ?_, ?_, ?_, by omega⟩
  · simp only [monday_of_week, Int.floor_sub_int]
  · unfold weekdayZ
    omega
  · intro k hk0 hk6
    rw [hflo]
    unfold weekdayZ at hd ⊢
    congr 1
    omega
  · unfold weekdayZ at hd ⊢
    omega
  · rw [hflo]
    unfold weekdayZ at hd ⊢
    congr 1
    omega

/-- C5 witness: day 4 (1970-01-05) is a Monday; the following Sunday maps to
it and the next Monday starts a new week. -/
theorem claim_C5_witness :
    monday_of_week (some ((4 + 6 : ℤ) : ℚ)) = some 4 ∧
    monday_of_week (some ((4 + 7 : ℤ) : ℚ)) = some (4 + 7) :=
  ⟨(claim_C5_week_key 0 4 (by decide)).2.2.2.1 6 (by norm_num) (by norm_num),
   (claim_C5_week_key 0 4 (by decide)).2.2.2.2.2.1⟩

/-- C6: before the two-tier median fill for rpe, a row with missing rpe whose
type is in the fixed default table gets the table value (race ↦ 9, etc.),
while a missing-rpe row with an unknown type stays missing and proceeds to
the median fill; present rpe values are untouched; the subsequent fill is the
ordinary two-tier imputation run on the pre-filled column, whose medians see
table-defaulted values like originally-present ones (in the example the
unknown-type row receives median {4, 9} = 6.5, the 9 being a defaulted
value). -/
theorem claim_C6_rpe_defaults (rows : List Cell) :
    (∀ (i : ℕ) (t : String), rows[i]? = some (t, none) →
        (rpeDefaultFill rows)[i]? = some (t, type_rpe_default t)) ∧
    (∀ (i : ℕ) (t : String) (v : ℚ), rows[i]? = some (t, some v) →
        (rpeDefaultFill rows)[i]? = some (t, some v)) ∧
    type_rpe_default "easy" = some 5 ∧ type_rpe_default "long" = some 6 ∧
    type_rpe_default "tempo" = some 7 ∧ type_rpe_default "interval" = some 8 ∧
    type_rpe_default "race" = some 9 ∧ type_rpe_default "test" = some 6 ∧
    type_rpe_default "rest" = some 2 ∧ type_rpe_default "unknown_type" = none ∧
    rpeStage rows = impute_with_medians (rpeDefaultFill rows) ∧
    rpeStage [("race", none), ("unknown_type", none), ("easy", some 4)]
      = [("race", some 9), ("unknown_type", some (13 / 2)), ("easy", some 4)] :=
  ⟨fun _ _ h => rpeDefaultFill_missing h,
   fun _ _ _ h => rpeDefaultFill_present h,
   by decide, by decide, by decide, by decide, by decide, by decide, by decide, by decide,
   rfl,
   by with_unfolding_all decide⟩

/-- C6 witness: a missing-rpe race row is pre-filled to 9. -/
theorem claim_C6_witness :
    (rpeDefaultFill [("race", none)])[0]? = some ("race", type_rpe_default "race") :=
  (claim_C6_rpe_defaults _).1 0 "race" rfl

/-- C7 counterexample: astype(str) stringifies a missing cell to "nan"
before strip/lower (type) and before the fillna (notes), so an absent value
becomes the string "nan", not the empty string the claim requires. -/
theorem claim_C7_counterexample :
    typeNorm PCell.pnan = PCell.pstr "nan" ∧
    notesNorm PCell.pnan = PCell.pstr "nan" ∧
    ("nan" : String) ≠ "" := by
  refine ⟨?_, ?_, ?_⟩ <;> decide

/-- C7 amended: after normalization the type and notes of every record are
non-null strings; a present type is trimmed and lowercased and a present
notes kept as-is, but an absent value becomes the string "nan" (the string
form of the missing marker) rather than the empty string — the fillna("")
never fires because astype(str) has already replaced NaN by "nan". -/
theorem claim_C7_string_norm_amended :
    (∀ c : PCell, ∃ s, typeNorm c = PCell.pstr s) ∧
    (∀ c : PCell, ∃ s, notesNorm c = PCell.pstr s) ∧
    typeNorm PCell.pnan = PCell.pstr "nan" ∧
    notesNorm PCell.pnan = PCell.pstr "nan" ∧
    (∀ s, typeNorm (PCell.pstr s) = PCell.pstr (lowerStr (pyStrip s))) ∧
    (∀ s, notesNorm (PCell.pstr s) = PCell.pstr s) ∧
    typeNorm (PCell.pstr "  Easy Run ") = PCell.pstr "easy run" := by
  refine ⟨?_, ?_, by decide, by decide, ?_, ?_, by decide⟩
  · intro c
    cases c <;> exact ⟨_, rfl⟩
  · intro c
    cases c <;> exact ⟨_, rfl⟩
  · intro s
    rfl
  · intro s
    rfl


/-- C8 counterexample: a row whose date failed to parse is retained through
the whole pipeline, but strftime maps its NaT to NaN, so the emitted daily
record has a null date — not the ISO string the claim requires. -/
theorem claim_C8_counterexample :
    buildDashboard expectedCols [⟨none, "x", none, none, none, none, none, "y"⟩]
      = Except.ok ([⟨none, "x", none, none, none, none, "y"⟩], []) ∧
    (([⟨none, "x", none, none, none, none, "y"⟩] : List DailyRec).all
        (fun d => d.date.isSome)) = false := by
  refine ⟨?_, ?_⟩ <;> with_unfolding_all decide

/-- C8 amended: rows are retained (the pipeline and the daily projection
preserve length); a record with a present date gets the ISO-formatted date
string of its day, while a record with a missing date keeps a null date in
the daily table. -/
theorem claim_C8_daily_dates_amended (rows : List Row) :
    (mkDaily rows).length = rows.length ∧
    (processRows rows).length = rows.length ∧
    (∀ (i : ℕ) (r : Row), rows[i]? = some r → ∃ d, (mkDaily rows)[i]? = some d ∧
        d.date = r.date.map (fun t => ymdString ⌊t⌋)) ∧
    (∀ (i : ℕ) (r : Row) (t : ℚ), rows[i]? = some r → r.date = some t →
        ∃ d, (mkDaily rows)[i]? = some d ∧ d.date = some (ymdString ⌊t⌋)) ∧
    (∀ (i : ℕ) (r : Row), rows[i]? = some r → r.date = none →
        ∃ d, (mkDaily rows)[i]? = some d ∧ d.date = none) := by
  have hbase : ∀ (i : ℕ) (r : Row), rows[i]? = some r →
      ∃ d, (mkDaily rows)[i]? = some d ∧ d.date = r.date.map (fun t => ymdString ⌊t⌋) := by
    intro i r h
    refine ⟨⟨r.date.map (fun t => ymdString ⌊t⌋), r.type, r.dist_km,
      r.pace_minpkm, r.hr_avg, r.rpe, r.notes⟩, ?_, rfl⟩
    unfold mkDaily
    rw [List.getElem?_map, h]
    rfl
  refine ⟨mkDaily_length rows, processRows_length rows, hbase, ?_, ?_⟩
  · intro i r t h ht
    obtain ⟨d, hd, hdate⟩ := hbase i r h
    exact ⟨d, hd, by rw [hdate, ht]; rfl⟩
  · intro i r h ht
    obtain ⟨d, hd, hdate⟩ := hbase i r h
    exact ⟨d, hd, by rw [hdate, ht]; rfl⟩

/-- C8 witness: a present date on day 4 renders as 1970-01-05 and a missing
date renders as null. -/
theorem claim_C8_witness :
    ∃ d, (mkDaily [⟨some 4, "easy", some 5, none, none, none, some 5, "ok"⟩])[0]?
      = some d ∧ d.date = some (ymdString ⌊(4 : ℚ)⌋) :=
  (claim_C8_daily_dates_amended _).2.2.2.1 0 _ 4 rfl rfl

/-- C9: the eight required columns are checked before any row processing;
when some are missing the pipeline fails with an error that names each
missing column (in Python list-repr form), independently of the rows; in
particular a schema without rpe yields an error containing 'rpe'. -/
theorem claim_C9_schema_check (cols : List String) (rows : List Row) :
    (missingCols cols = [] → ∃ out, buildDashboard cols rows = Except.ok out) ∧
    (∀ c, c ∈ missingCols cols ↔ c ∈ expectedCols ∧ c ∉ cols) ∧
    (missingCols cols ≠ [] →
      buildDashboard cols rows = Except.error (schemaMsg (missingCols cols)) ∧
      buildDashboard cols rows = buildDashboard cols [] ∧
      ∀ c ∈ missingCols cols, ∃ p q, schemaMsg (missingCols cols) = p ++ quoteCol c ++ q) ∧
    ("rpe" ∉ cols → ∃ p q, buildDashboard cols rows
        = Except.error (p ++ "'rpe'" ++ q)) := by
  refine ⟨?_, fun _ => missingCols_mem, ?_, ?_⟩
  · intro h
    refine ⟨(mkDaily (processRows rows), weeklyTable (processRows rows)), ?_⟩
    unfold buildDashboard
    rw [if_pos h]
  · intro h
    exact ⟨buildDashboard_error rows h, by rw [buildDashboard_error rows h,
      buildDashboard_error [] h], fun c hc => schemaMsg_names hc⟩
  · intro h
    have hmem : "rpe" ∈ missingCols cols := missingCols_mem.2 ⟨by simp [expectedCols], h⟩
    obtain ⟨p, q, hpq⟩ := schemaMsg_names hmem
    refine ⟨p, q, ?_⟩
    rw [buildDashboard_error rows (List.ne_nil_of_mem hmem), hpq]
    rfl

/-- C9 witness: a schema with every column except rpe fails with an error
naming 'rpe', before any row is processed. -/
theorem claim_C9_witness :
    ∃ p q, buildDashboard ["date", "type", "distance_km", "avg_pace", "avg_hr_bpm",
        "avg_cadence_spm", "notes"] []
      = Except.error (p ++ "'rpe'" ++ q) :=
  (claim_C9_schema_check _ _).2.2.2 (by decide)

/-- C10: the normalization sort is a permutation of the rows that is
ascending on parsed dates and places every missing-date row after all
present-date rows (pandas na_position='last'). -/
theorem claim_C10_sort_missing_last (rows : List Row) :
    List.Perm (sortByDate rows) rows ∧
    (sortByDate rows).Pairwise (fun a b =>
      (∀ x y, a.date = some x → b.date = some y → x ≤ y) ∧
      (a.date = none → b.date = none)) :=
  ⟨sortByDate_perm rows, sortByDate_sorted rows⟩

end RunDash
